import Mathlib

/-!
Verification development for the time-duration analysis engine of the
BotValorAgregado repository (Python sources: `time_analyzer.py`,
`excel_processor.py`, `data_loader.py`).

The pandas/Python code is shallowly embedded: dataframes become lists of
typed rows together with an explicit column-name list, float timestamps
and durations become rationals, NaN/NaT become `Option`/dedicated
constructors, Python exceptions become `Except String`, and the pandas
sorting/grouping primitives become explicit executable list functions.
-/

namespace BotVA

/-! ## Generic list machinery

Stable insertion sort.  `list.sort` in Python and `sort_values`/sorted
`groupby` keys in pandas are modelled with this sort; it is a
permutation, and for a total transitive boolean preorder it produces a
pairwise-sorted list that keeps the relative order of ties (stability is
captured by the `Q` relation in `pairwise_insertSorted`). -/

def insertSorted (le : α → α → Bool) (x : α) : List α → List α
  | [] => [x]
  | y :: ys => if le x y then x :: y :: ys else y :: insertSorted le x ys

def insSort (le : α → α → Bool) : List α → List α
  | [] => []
  | x :: xs => insertSorted le x (insSort le xs)

/-- Deduplication keeping the first occurrence of each element, the
semantics of pandas `drop_duplicates`. -/
def dedupKeepFirst [DecidableEq α] : List α → List α
  | [] => []
  | x :: xs => x :: dedupKeepFirst (xs.filter (fun y => y ≠ x))
termination_by l => l.length
decreasing_by
  exact Nat.lt_succ_of_le (List.length_filter_le _ _)

/-! ## Python string comparison

Python compares strings lexicographically by Unicode code point; pandas
`groupby` sorts the group keys with this order.  The comparison is
embedded directly on the character lists of the strings. -/

def lexLtB : List Char → List Char → Bool
  | [], [] => false
  | [], _ :: _ => true
  | _ :: _, [] => false
  | a :: as, b :: bs =>
    if a.toNat < b.toNat then true
    else if b.toNat < a.toNat then false
    else lexLtB as bs

def strLtB (a b : String) : Bool := lexLtB a.data b.data

def strLeB (a b : String) : Bool := !(strLtB b a)

/-! ## Model of `time_analyzer.py`

A dataframe row carries the technician name (`Nombre del oficial técnico
que brinda servicio`), the terminal model column value, and the two
timestamp columns as rationals measured in seconds (`none` models a
pandas `NaT`).  The dataframe itself additionally carries its column-name
list so that the column-presence guards of the source can be stated. -/

structure TRow where
  tecnico : String
  modelo : String
  llegada : Option ℚ
  salida : Option ℚ
deriving DecidableEq

/-- Row after `calculate_service_duration`: the source returns a copy of
the frame with the added column `Duración (minutos)` (`durMin` here,
`none` models NaN). -/
structure DRow where
  tecnico : String
  modelo : String
  llegada : Option ℚ
  salida : Option ℚ
  durMin : Option ℚ
deriving DecidableEq

/-- Embedding of line 21-22 of `time_analyzer.py`: the raw duration
column `(Hora de salida − Hora de llegada).dt.total_seconds() / 60`.
Subtraction involving a NaT timestamp gives NaN (`none`). -/
def rawDurationMin (r : TRow) : Option ℚ :=
  match r.salida, r.llegada with
  | some s, some a => some ((s - a) / 60)
  | _, _ => none

/-- Embedding of line 25 of `time_analyzer.py`:
`df.loc[df(duration) < 0, duration] = np.nan` — strictly negative
durations are replaced by NaN; NaN stays NaN (a NaN comparison is
false). -/
def nullifyNegative : Option ℚ → Option ℚ
  | some d => if d < 0 then none else some d
  | none => none

def timeRequiredColumns : List String := ["Hora de llegada", "Hora de salida"]

/-- Embedding of `calculate_service_duration` (`time_analyzer.py` lines
7-27): the guard of lines 12-15 raises a ValueError naming all of the
missing required columns, joined by a comma, before touching any row;
otherwise every row receives exactly one `Duración (minutos)` value. -/
def calculate_service_duration (columns : List String) (rows : List TRow) :
    Except String (List DRow) :=
  if timeRequiredColumns.all (fun c => columns.contains c) then
    .ok (rows.map (fun r =>
      ⟨r.tecnico, r.modelo, r.llegada, r.salida, nullifyNegative (rawDurationMin r)⟩))
  else
    .error ("Faltan columnas necesarias: "
      ++ String.intercalate ", " (timeRequiredColumns.filter (fun c => !columns.contains c)))

/-- One output row of the `groupby(...).agg(mean, count, min, max)`
aggregations; `none` for `mean`, `minVal`, `maxVal` models the NaN that
pandas produces on a group with no non-NaN value. -/
structure AggRow where
  key : String
  mean : Option ℚ
  count : Nat
  minVal : Option ℚ
  maxVal : Option ℚ
deriving DecidableEq

/-- Mean of the non-NaN values of a group, NaN (`none`) when the group
has none — exactly what the pandas `mean` aggregation computes. -/
def meanOf (vals : List ℚ) : Option ℚ :=
  if vals.length = 0 then none else some (vals.sum / (vals.length : ℚ))

def aggRowFor (k : String) (vals : List ℚ) : AggRow :=
  ⟨k, meanOf vals, vals.length, vals.min?, vals.max?⟩

/-- Comparator realising `sort_values('Promedio (min)')`: ascending by
mean with NaN placed last (the pandas default `na_position='last'`). -/
def aggLe (a b : AggRow) : Bool :=
  match a.mean, b.mean with
  | some x, some y => decide (x ≤ y)
  | some _, none => true
  | none, some _ => false
  | none, none => true

/-- Sorted distinct group keys, as produced by pandas `groupby` (which
sorts keys ascending by default). -/
def groupKeys (keyOf : DRow → String) (rows : List DRow) : List String :=
  insSort strLeB (dedupKeepFirst (rows.map keyOf))

/-- Embedding of `df.groupby(key)['Duración (minutos)'].agg(['mean',
'count', 'min', 'max']) ... .sort_values('Promedio (min)')`: one
aggregate row per distinct key over the non-NaN durations of that key's
rows, sorted ascending by mean.  Rows whose key has only NaN durations
are still grouped (pandas drops a group only when the KEY is NaN, never
when the aggregated values are).  `sort_values` runs pandas' default
`kind='quicksort'`, which does not specify the order of rows with equal
means; the insertion sort used here realises one admissible order, and
no theorem below relies on how equal-mean rows are ordered. -/
def aggregateBy (keyOf : DRow → String) (rows : List DRow) : List AggRow :=
  insSort aggLe ((groupKeys keyOf rows).map (fun k =>
    aggRowFor k ((rows.filter (fun r => keyOf r == k)).filterMap (fun r => r.durMin))))

/-- Embedding of `get_average_duration_by_technician` (`time_analyzer.py`
lines 30-45).  The column guards of lines 34-39 are rendered by the
typed row (both columns exist by construction). -/
def get_average_duration_by_technician (rows : List DRow) : List AggRow :=
  aggregateBy (fun r => r.tecnico) rows

/-- Embedding of `get_average_duration_by_terminal_model`
(`time_analyzer.py` lines 48-72), with `modelo` standing for the first
column whose name contains `Terminal - Modelo`. -/
def get_average_duration_by_terminal_model (rows : List DRow) : List AggRow :=
  aggregateBy (fun r => r.modelo) rows

/-! ## Quantiles and the anomaly detector -/

def qLeB (a b : ℚ) : Bool := decide (a ≤ b)

/-- Linear-interpolation quantile over an already sorted list, the
default pandas `Series.quantile` interpolation: with
`h = q*(n-1)`, `i = ⌊h⌋` and `g = h - i`, the value is
`s[i] + g*(s[i+1] - s[i])` (the `i+1` access falls back to `s[i]` at the
upper end, where `g = 0`). -/
def nthOr : List ℚ → ℚ → Nat → ℚ
  | [], d, _ => d
  | x :: _, _, 0 => x
  | _ :: xs, d, n + 1 => nthOr xs d n

def quantileSorted (s : List ℚ) (q : ℚ) : ℚ :=
  let n := s.length
  let h : ℚ := q * ((n : ℚ) - 1)
  let i : ℕ := ⌊h⌋.toNat
  let g : ℚ := h - (i : ℚ)
  let lo := nthOr s 0 i
  let hi := nthOr s lo (i + 1)
  lo + g * (hi - lo)

/-- Embedding of `df['Duración (minutos)'].quantile(q)`.  The quantile of
an empty series is NaN in pandas; the `0` returned here is never
compared against any record in that case, because an empty frame has no
rows to tag. -/
def quantile (vals : List ℚ) (q : ℚ) : ℚ :=
  if vals.isEmpty then 0 else quantileSorted (insSort qLeB vals) q

/-- Embedding of `identify_anomalies` (`time_analyzer.py` lines 75-100),
generic in the row type with `dur` projecting the `Duración (minutos)`
column.  `threshold_factor` defaults to `1.5` in the source and is the
explicit argument `k` here.  The source first selects the rows outside
the bounds, initialises the new column `Tipo de Anomalía` with
`'Normal'`, then overwrites it with `'Corta'` on the rows below the
lower bound and finally with `'Larga'` on the rows above the upper
bound, so the `'Larga'` assignment wins when both conditions hold. -/
def identify_anomalies (dur : α → ℚ) (rows : List α) (k : ℚ) : List (α × String) :=
  let durs := rows.map dur
  let q1 := quantile durs (1/4)
  let q3 := quantile durs (3/4)
  let iqr := q3 - q1
  let lowerBound := q1 - k * iqr
  let upperBound := q3 + k * iqr
  let anomalies := rows.filter (fun r => decide (dur r < lowerBound) || decide (upperBound < dur r))
  anomalies.map (fun r =>
    (r, if upperBound < dur r then "Larga" else if dur r < lowerBound then "Corta" else "Normal"))

/-! ## Model of `data_loader.py` -/

def missingColumns (required columns : List String) : List String :=
  required.filter (fun c => !columns.contains c)

/-- Embedding of `validate_required_columns` (`data_loader.py` lines
42-49): raises a ValueError naming every missing column, joined by a
comma, and returns True otherwise.  The result does not depend on any
row of the frame, only on its column list. -/
def validate_required_columns (columns required : List String) : Except String Bool :=
  let missing := missingColumns required columns
  if missing.isEmpty then .ok true
  else .error ("Faltan columnas necesarias: " ++ String.intercalate ", " missing)

/-! ## Model of `excel_processor.py`

A timestamp cell of the raw spreadsheet is either absent (NaN, dropped
by the first `dropna`), a value the format-fallback chain of lines 45-61
can parse (modelled by its canonical instant in seconds), or text that
defeats every format and is coerced to NaT.  A report-date cell is
likewise absent, a calendar date, or unparsable. -/

inductive CellTime where
  | missing
  | parsed (t : ℚ)
  | unparsable
deriving DecidableEq

def CellTime.isMissing : CellTime → Bool
  | .missing => true
  | _ => false

/-- Result of the to-datetime conversion chain (lines 45-61): every
fallback ends in `errors='coerce'`, so a parseable cell keeps its
instant and anything else becomes NaT. -/
def parseTimeCell : CellTime → Option ℚ
  | .parsed t => some t
  | _ => none

inductive CellDate where
  | missing
  | date (d m y : Nat)
  | unparsable
deriving DecidableEq

def CellDate.isMissing : CellDate → Bool
  | .missing => true
  | _ => false

def pad2 (n : Nat) : String :=
  if n < 10 then "0" ++ toString n else toString n

/-- Embedding of `pd.to_datetime(..., errors='coerce').dt.strftime('%d/%m/%Y')`
on the `Fecha de Reporte` column: a parsed date is formatted, NaN and
unparsable cells become NaN (`none`), to be filled by the subsequent
`fillna`. -/
def formatDate : CellDate → Option String
  | .date d m y => some (pad2 d ++ "/" ++ pad2 m ++ "/" ++ toString y)
  | _ => none

/-- One raw spreadsheet row.  `oficial` is the cell of the technician
column (`none` = NaN), `llegada`/`salida` the two timestamp cells,
`afiliado`/`fecha` the two optional affiliate columns. -/
structure XRow where
  oficial : Option String
  llegada : CellTime
  salida : CellTime
  afiliado : Option String
  fecha : CellDate
deriving DecidableEq

structure XFrame where
  columns : List String
  rows : List XRow
deriving DecidableEq

def requiredColumns : List String :=
  ["Nombre del oficial técnico que brinda servicio", "Hora de llegada", "Hora de salida"]

/-- Row survival of the first `dropna(subset=required_columns)` (line
37): all three required cells present. -/
def keepRow (r : XRow) : Bool :=
  r.oficial.isSome && !r.llegada.isMissing && !r.salida.isMissing

/-- Normalized row surviving the second `dropna` (line 64): both
timestamps parsed. -/
structure NRow where
  oficial : String
  llegada : ℚ
  salida : ℚ
deriving DecidableEq

def normalizeRow (r : XRow) : Option NRow :=
  match parseTimeCell r.llegada, parseTimeCell r.salida with
  | some a, some s => some ⟨r.oficial.getD "", a, s⟩
  | _, _ => none

/-- One record entry of an officer group (lines 105-130 of
`excel_processor.py`). -/
structure XRecord where
  llegada : ℚ
  salida : ℚ
  tiempoTexto : String
  tiempoSeconds : ℚ
  esTiempoValido : Bool
deriving DecidableEq

/-- Embedding of the per-row body of lines 105-130: signed stay time in
seconds, validity flag `es_tiempo_valido = segundos_estadia > 0`, and
the human-readable text, with the anomaly marker on strictly negative
stays. -/
def mkRecord (a s : ℚ) : XRecord :=
  let secs := s - a
  let valido := decide (0 < secs)
  let horas := ⌊|secs| / 3600⌋
  let minutos := ⌊(|secs| - 3600 * (horas : ℚ)) / 60⌋
  let texto :=
    if secs < 0 then
      "-" ++ toString horas ++ " horas, " ++ toString minutos ++ " minutos (anomalía)"
    else
      toString horas ++ " horas, " ++ toString minutos ++ " minutos"
  ⟨a, s, texto, secs, valido⟩

/-- Formatting of a non-negative number of seconds as
`X horas, Y minutos` (the `int(x // 3600)` / `int((x % 3600) // 60)` of
lines 150-155). -/
def fmtHorasMinutos (s : ℚ) : String :=
  let horas := ⌊s / 3600⌋
  let minutos := ⌊(s - 3600 * (horas : ℚ)) / 60⌋
  toString horas ++ " horas, " ++ toString minutos ++ " minutos"

structure XOfficer where
  records : List XRecord
  total_records : Nat
  valid_records : Nat
  avg_time : String
  total_time : String
deriving DecidableEq

def recordLe (a b : XRecord) : Bool := decide (a.llegada ≤ b.llegada)

/-- Embedding of the per-officer group body (lines 102-163): records
sorted by arrival (Python `list.sort` is stable), statistics over the
strictly positive stay times only, `N/A` averages when no positive stay
exists. -/
def mkOfficer (pairs : List (ℚ × ℚ)) : XOfficer :=
  let records := insSort recordLe (pairs.map (fun p => mkRecord p.1 p.2))
  let validSeconds := (pairs.map (fun p => p.2 - p.1)).filter (fun s => decide (0 < s))
  let totalValid := validSeconds.length
  let totalSeconds := if 0 < totalValid then validSeconds.sum else 0
  let avgSeconds := if 0 < totalValid then validSeconds.sum / (totalValid : ℚ) else 0
  { records := records
    total_records := records.length
    valid_records := totalValid
    avg_time := if 0 < totalValid then fmtHorasMinutos avgSeconds else "N/A"
    total_time := if 0 < totalValid then fmtHorasMinutos totalSeconds else "N/A" }

structure XAffiliate where
  nombre : String
  fecha : String
deriving DecidableEq

def defaultAffiliate : XAffiliate :=
  ⟨"No especificado", "No especificada"⟩

/-- Embedding of the affiliate extraction (lines 71-96): when both
affiliate columns exist, take the (nombre, fecha) pairs, drop the rows
where both are NaN (`dropna(how='all')`), deduplicate keeping first
occurrences, format the date and fill the remaining NaN with
`No especificado`; otherwise, and when no pair survives, a single
default record. -/
def affiliatesData (df : XFrame) : List XAffiliate :=
  if df.columns.contains "Nombre del Afiliado" && df.columns.contains "Fecha de Reporte" then
    let pairs := (df.rows.map (fun r => (r.afiliado, r.fecha))).filter
      (fun p => !(p.1.isNone && p.2.isMissing))
    let pairs := dedupKeepFirst pairs
    let affs := pairs.map (fun p =>
      XAffiliate.mk (p.1.getD "No especificado") ((formatDate p.2).getD "No especificado"))
    if affs.isEmpty then [defaultAffiliate] else affs
  else [defaultAffiliate]

/-- Shape of the dictionary returned by `process_excel_file`: either the
bare empty dictionary of line 40, or the dictionary holding one entry
per officer plus the `'operational_data'` entry of lines 165-168. -/
inductive XResult where
  | emptyDict
  | result (officers : List (String × XOfficer)) (affiliates : List XAffiliate)
deriving DecidableEq

def XResult.officersOf : XResult → List (String × XOfficer)
  | .emptyDict => []
  | .result offs _ => offs

/-- Key list of the returned Python dictionary, in insertion order; when
an officer is literally named `operational_data` the final assignment of
line 166 overwrites that entry in place instead of adding a key. -/
def XResult.keys : XResult → List String
  | .emptyDict => []
  | .result offs _ =>
    if (offs.map Prod.fst).contains "operational_data" then offs.map Prod.fst
    else offs.map Prod.fst ++ ["operational_data"]

def wrapExcelError (s : String) : String :=
  "Error al procesar el archivo Excel: " ++ s

/-- Embedding of `process_excel_file` (`excel_processor.py` lines
12-174).  The column loop of lines 32-34 raises on the FIRST missing
required column; the `except` clause of lines 172-174 re-raises with the
`Error al procesar el archivo Excel:` prefix.  After the two `dropna`
passes the surviving rows are grouped by officer (sorted keys, row
order preserved inside a group) and the affiliate data is attached
under `operational_data`. -/
def process_excel_file (df : XFrame) : Except String XResult :=
  match requiredColumns.find? (fun c => !df.columns.contains c) with
  | some c => .error (wrapExcelError ("El archivo Excel no contiene la columna: " ++ c))
  | none =>
    let rows1 := df.rows.filter keepRow
    if rows1.isEmpty then .ok .emptyDict
    else
      let rows2 := rows1.filterMap normalizeRow
      let affs := affiliatesData df
      let keys := insSort strLeB (dedupKeepFirst (rows2.map (fun r => r.oficial)))
      let officers := keys.map (fun k =>
        (k, mkOfficer (((rows2.filter (fun r => r.oficial == k))).map (fun r => (r.llegada, r.salida)))))
      .ok (.result officers affs)


/-- Name for the local `lower_bound = Q1 - threshold_factor * IQR` of
`identify_anomalies` (line 88 of `time_analyzer.py`). -/
def anomalyLowerBound (dur : α → ℚ) (rows : List α) (k : ℚ) : ℚ :=
  quantile (rows.map dur) (1/4)
    - k * (quantile (rows.map dur) (3/4) - quantile (rows.map dur) (1/4))

/-- Name for the local `upper_bound = Q3 + threshold_factor * IQR` of
`identify_anomalies` (line 89 of `time_analyzer.py`). -/
def anomalyUpperBound (dur : α → ℚ) (rows : List α) (k : ℚ) : ℚ :=
  quantile (rows.map dur) (3/4)
    + k * (quantile (rows.map dur) (3/4) - quantile (rows.map dur) (1/4))

/-- Containment of one piece of text in another (used to state that an
error message does or does not name a column). -/
def mentions (msg sub : String) : Prop := sub.data <:+: msg.data

instance (msg sub : String) : Decidable (mentions msg sub) :=
  inferInstanceAs (Decidable (sub.data <:+: msg.data))

/-- Reading of the specification phrase `the earlier row has mean less
than or equal to the later one` on nullable means: a NaN mean compares
false, as in pandas. -/
def meanLeProp : Option ℚ → Option ℚ → Prop
  | some a, some b => a ≤ b
  | _, _ => False

/-! ## General lemmas about the list machinery and the string order -/

theorem perm_insertSorted (le : α → α → Bool) (x : α) :
    ∀ l : List α, (insertSorted le x l).Perm (x :: l) := by
  intro l
  induction l with
  | nil => simp [insertSorted]
  | cons y ys ih =>
    simp only [insertSorted]
    by_cases h : le x y
    · simp [h]
    · simp only [h]
      simp only [Bool.false_eq_true, if_false]
      exact (ih.cons y).trans (List.Perm.swap x y ys)

theorem perm_insSort (le : α → α → Bool) :
    ∀ l : List α, (insSort le l).Perm l := by
  intro l
  induction l with
  | nil => simp [insSort]
  | cons x xs ih =>
    exact (perm_insertSorted le x (insSort le xs)).trans (ih.cons x)

theorem mem_insSort (le : α → α → Bool) {l : List α} {a : α} :
    a ∈ insSort le l ↔ a ∈ l :=
  (perm_insSort le l).mem_iff

theorem length_insSort (le : α → α → Bool) (l : List α) :
    (insSort le l).length = l.length :=
  (perm_insSort le l).length_eq

theorem nodup_insSort (le : α → α → Bool) {l : List α} (h : l.Nodup) :
    (insSort le l).Nodup :=
  ((perm_insSort le l).nodup_iff).mpr h

theorem pairwise_insertSorted (le : α → α → Bool) (Q : α → α → Prop)
    (htot : ∀ a b, le a b = true ∨ le b a = true)
    (htrans : ∀ a b c, le a b = true → le b c = true → le a c = true)
    (x : α) (l : List α)
    (hl : l.Pairwise (fun a b => le a b = true ∧ (le b a = true → Q a b)))
    (hx : ∀ y ∈ l, Q x y) :
    (insertSorted le x l).Pairwise
      (fun a b => le a b = true ∧ (le b a = true → Q a b)) := by
  induction l with
  | nil => simp [insertSorted]
  | cons y ys ih =>
    rcases List.pairwise_cons.mp hl with ⟨hy, hys⟩
    simp only [insertSorted]
    by_cases h : le x y
    · simp only [h, if_true]
      refine List.pairwise_cons.mpr ⟨?_, hl⟩
      intro z hz
      rcases List.mem_cons.mp hz with hzy | hz
      · rw [hzy]
        exact ⟨h, fun _ => hx y (by simp)⟩
      · exact ⟨htrans x y z h (hy z hz).1, fun _ => hx z (by simp [hz])⟩
    · simp only [h, Bool.false_eq_true, if_false]
      refine List.pairwise_cons.mpr ⟨?_, ?_⟩
      · intro z hz
        rcases List.mem_cons.mp ((perm_insertSorted le x ys).mem_iff.mp hz) with hzx | hz
        · rw [hzx]
          refine ⟨?_, ?_⟩
          · rcases htot y x with hle | hle
            · exact hle
            · exact absurd hle (by simpa using h)
          · intro hzy
            exact absurd hzy (by simpa using h)
        · exact hy z hz
      · exact ih hys (fun z hz => hx z (by simp [hz]))

theorem pairwise_insSort (le : α → α → Bool) (Q : α → α → Prop)
    (htot : ∀ a b, le a b = true ∨ le b a = true)
    (htrans : ∀ a b c, le a b = true → le b c = true → le a c = true)
    (l : List α) (hQ : l.Pairwise Q) :
    (insSort le l).Pairwise
      (fun a b => le a b = true ∧ (le b a = true → Q a b)) := by
  induction l with
  | nil => simp [insSort]
  | cons x xs ih =>
    rcases List.pairwise_cons.mp hQ with ⟨hx, hxs⟩
    exact pairwise_insertSorted le Q htot htrans x (insSort le xs) (ih hxs)
      (fun y hy => hx y ((perm_insSort le xs).mem_iff.mp hy))

theorem mem_dedupKeepFirst [DecidableEq α] :
    ∀ (l : List α) (a : α), a ∈ dedupKeepFirst l ↔ a ∈ l := by
  intro l
  induction l using dedupKeepFirst.induct with
  | case1 => simp [dedupKeepFirst]
  | case2 x xs ih =>
    intro a
    rw [dedupKeepFirst]
    simp only [List.mem_cons, ih]
    constructor
    · rintro (rfl | h)
      · exact Or.inl rfl
      · exact Or.inr (List.mem_of_mem_filter h)
    · rintro (rfl | h)
      · exact Or.inl rfl
      · by_cases hx : a = x
        · exact Or.inl hx
        · exact Or.inr (List.mem_filter.mpr ⟨h, by simpa using hx⟩)

theorem nodup_dedupKeepFirst [DecidableEq α] :
    ∀ l : List α, (dedupKeepFirst l).Nodup := by
  intro l
  induction l using dedupKeepFirst.induct with
  | case1 => simp [dedupKeepFirst]
  | case2 x xs ih =>
    rw [dedupKeepFirst]
    refine List.nodup_cons.mpr ⟨?_, ih⟩
    intro hmem
    have := List.mem_of_mem_filter ((mem_dedupKeepFirst _ _).mp hmem)
    have hne := List.of_mem_filter ((mem_dedupKeepFirst _ _).mp hmem)
    simp at hne

/-- Sum distributes over a pointwise sum of mapped functions. -/
theorem sum_map_add (l : List α) (f g : α → ℕ) :
    (l.map (fun x => f x + g x)).sum = (l.map f).sum + (l.map g).sum := by
  induction l with
  | nil => simp
  | cons x xs ih => simp [ih]; omega

theorem sum_indicator_zero [BEq κ] [LawfulBEq κ] (k : κ) :
    ∀ keys : List κ, k ∉ keys →
      (keys.map (fun j => if k == j then 1 else 0)).sum = 0 := by
  intro keys
  induction keys with
  | nil => simp
  | cons j js ih =>
    intro hk
    have hkj : ¬ (k == j) = true := by
      intro h
      exact hk (by simp [eq_of_beq h])
    have hkjs : k ∉ js := fun h => hk (by simp [h])
    simp [hkj, ih hkjs]

theorem sum_indicator_one [BEq κ] [LawfulBEq κ] (k : κ) :
    ∀ keys : List κ, keys.Nodup → k ∈ keys →
      (keys.map (fun j => if k == j then 1 else 0)).sum = 1 := by
  intro keys
  induction keys with
  | nil => simp
  | cons j js ih =>
    intro hnd hk
    rcases List.nodup_cons.mp hnd with ⟨hj, hjs⟩
    rcases List.mem_cons.mp hk with rfl | hk
    · have : k ∉ js := hj
      simp [sum_indicator_zero k js this]
    · have hkj : ¬ (k == j) = true := by
        intro h
        exact hj (by simpa [eq_of_beq h] using hk)
      simp [hkj, ih hjs hk]

/-- Partition property of grouping: summing the sizes of the per-key
filtered sublists over a duplicate-free covering key list gives back the
total number of rows. -/
theorem sum_counts_partition [BEq κ] [LawfulBEq κ] (keyOf : α → κ)
    (rows : List α) (keys : List κ) (hnd : keys.Nodup)
    (hcover : ∀ r ∈ rows, keyOf r ∈ keys) :
    (keys.map (fun k => (rows.filter (fun r => keyOf r == k)).length)).sum
      = rows.length := by
  induction rows with
  | nil => simp
  | cons r rs ih =>
    have hr : keyOf r ∈ keys := hcover r (by simp)
    have hrs : ∀ x ∈ rs, keyOf x ∈ keys := fun x hx => hcover x (by simp [hx])
    have step : ∀ k : κ,
        ((r :: rs).filter (fun x => keyOf x == k)).length
          = (if keyOf r == k then 1 else 0)
            + (rs.filter (fun x => keyOf x == k)).length := by
      intro k
      by_cases h : (keyOf r == k) = true
      · simp [List.filter_cons, h]
        omega
      · simp [List.filter_cons, h]
    calc (keys.map (fun k => ((r :: rs).filter (fun x => keyOf x == k)).length)).sum
        = (keys.map (fun k => (if keyOf r == k then 1 else 0)
            + (rs.filter (fun x => keyOf x == k)).length)).sum := by
          congr 1
          exact List.map_congr_left (fun k _ => step k)
      _ = (keys.map (fun k => if keyOf r == k then 1 else 0)).sum
            + (keys.map (fun k => (rs.filter (fun x => keyOf x == k)).length)).sum :=
          sum_map_add keys _ _
      _ = 1 + rs.length := by
          rw [sum_indicator_one (keyOf r) keys hnd hr, ih hrs]
      _ = (r :: rs).length := by simp; omega

theorem lexLtB_asymm :
    ∀ as bs : List Char, lexLtB as bs = true → lexLtB bs as = false := by
  intro as
  induction as with
  | nil =>
    intro bs h
    cases bs with
    | nil => simp [lexLtB] at h
    | cons b bs2 => simp [lexLtB]
  | cons a as2 ih =>
    intro bs h
    cases bs with
    | nil => simp [lexLtB] at h
    | cons b bs2 =>
      simp only [lexLtB] at h ⊢
      by_cases hab : a.toNat < b.toNat
      · have hba : ¬ b.toNat < a.toNat := by omega
        simp [hab, hba]
      · by_cases hba : b.toNat < a.toNat
        · simp [hab, hba] at h
        · simp only [hab, hba, if_false] at h ⊢
          exact ih bs2 h

theorem lexLtB_conn :
    ∀ as bs cs : List Char, lexLtB as cs = true →
      lexLtB as bs = true ∨ lexLtB bs cs = true := by
  intro as
  induction as with
  | nil =>
    intro bs cs h
    cases cs with
    | nil => simp [lexLtB] at h
    | cons c cs2 =>
      cases bs with
      | nil => exact Or.inr (by simp [lexLtB])
      | cons b bs2 => exact Or.inl (by simp [lexLtB])
  | cons a as2 ih =>
    intro bs cs h
    cases cs with
    | nil => simp [lexLtB] at h
    | cons c cs2 =>
      cases bs with
      | nil => exact Or.inr (by simp [lexLtB])
      | cons b bs2 =>
        simp only [lexLtB] at h ⊢
        by_cases hac : a.toNat < c.toNat
        · by_cases hab : a.toNat < b.toNat
          · exact Or.inl (by simp [hab])
          · have hbc : b.toNat < c.toNat := by omega
            exact Or.inr (by simp [hbc])
        · by_cases hca : c.toNat < a.toNat
          · simp [hac, hca] at h
          · simp only [hac, hca, if_false] at h
            by_cases hab : a.toNat < b.toNat
            · exact Or.inl (by simp [hab])
            · by_cases hba : b.toNat < a.toNat
              · have hbc : b.toNat < c.toNat := by omega
                exact Or.inr (by simp [hbc])
              · rcases ih bs2 cs2 h with h2 | h2
                · exact Or.inl (by simp [hab, hba, h2])
                · have hbc1 : ¬ b.toNat < c.toNat := by omega
                  have hcb1 : ¬ c.toNat < b.toNat := by omega
                  exact Or.inr (by simp [hbc1, hcb1, h2])

theorem strLeB_total : ∀ a b : String, strLeB a b = true ∨ strLeB b a = true := by
  intro a b
  by_cases h : strLtB b a
  · right
    have := lexLtB_asymm b.data a.data h
    simp [strLeB, strLtB, this]
  · left
    simp [strLeB, strLtB] at h ⊢
    exact h

theorem strLeB_trans :
    ∀ a b c : String, strLeB a b = true → strLeB b c = true → strLeB a c = true := by
  intro a b c hab hbc
  simp only [strLeB, strLtB, Bool.not_eq_true', Bool.not_eq_eq_eq_not, Bool.not_true] at hab hbc ⊢
  by_cases h : lexLtB c.data a.data
  · rcases lexLtB_conn c.data b.data a.data h with h2 | h2
    · rw [h2] at hbc
      exact absurd hbc (by simp)
    · rw [h2] at hab
      exact absurd hab (by simp)
  · simpa using h

theorem strLeB_antisymm_of_ne :
    ∀ a b : String, strLeB a b = true → strLeB b a = true → strLtB a b = false ∧ strLtB b a = false := by
  intro a b hab hba
  constructor
  · simpa [strLeB] using hba
  · simpa [strLeB] using hab

theorem mem_map_pair {l : List α} {g : α → String} {r : α} {t : String} :
    (r, t) ∈ l.map (fun x => (x, g x)) ↔ r ∈ l ∧ t = g r := by
  constructor
  · intro h
    rcases List.mem_map.mp h with ⟨x, hx, hxe⟩
    have h1 : x = r := congrArg Prod.fst hxe
    have h2 : g x = t := congrArg Prod.snd hxe
    subst h1
    exact ⟨hx, h2.symm⟩
  · rintro ⟨hr, rfl⟩
    exact List.mem_map.mpr ⟨r, hr, rfl⟩

theorem qLeB_total : ∀ a b : ℚ, qLeB a b = true ∨ qLeB b a = true := by
  intro a b
  rcases le_total a b with h | h
  · exact Or.inl (by simp [qLeB, h])
  · exact Or.inr (by simp [qLeB, h])

theorem qLeB_trans : ∀ a b c : ℚ, qLeB a b = true → qLeB b c = true → qLeB a c = true := by
  intro a b c hab hbc
  simp only [qLeB, decide_eq_true_eq] at hab hbc ⊢
  exact le_trans hab hbc

theorem aggLe_total : ∀ a b : AggRow, aggLe a b = true ∨ aggLe b a = true := by
  intro a b
  unfold aggLe
  rcases ha : a.mean with _ | x <;> rcases hb : b.mean with _ | y <;> simp
  exact le_total x y

theorem aggLe_trans :
    ∀ a b c : AggRow, aggLe a b = true → aggLe b c = true → aggLe a c = true := by
  intro a b c hab hbc
  unfold aggLe at hab hbc ⊢
  rcases ha : a.mean with _ | x <;> rcases hb : b.mean with _ | y <;>
    rcases hc : c.mean with _ | z <;> simp_all
  exact le_trans hab hbc

theorem recordLe_total : ∀ a b : XRecord, recordLe a b = true ∨ recordLe b a = true := by
  intro a b
  rcases le_total a.llegada b.llegada with h | h
  · exact Or.inl (by simp [recordLe, h])
  · exact Or.inr (by simp [recordLe, h])

theorem sorted_pairwise_insSort_qLeB (l : List ℚ) :
    (insSort qLeB l).Pairwise (· ≤ ·) := by
  have h := pairwise_insSort qLeB (fun _ _ => True) qLeB_total qLeB_trans l
    (List.pairwise_iff_forall_sublist.mpr (by intro a b _; trivial))
  refine h.imp ?_
  intro a b hab
  have := hab.1
  simpa [qLeB] using this

theorem nthOr_eq_getD : ∀ (s : List ℚ) (d : ℚ) (i : ℕ), nthOr s d i = s.getD i d := by
  intro s
  induction s with
  | nil => intro d i; cases i <;> simp [nthOr]
  | cons x xs ih =>
    intro d i
    cases i with
    | zero => simp [nthOr]
    | succ n => simp [nthOr, ih d n]

theorem sorted_getD_mono {s : List ℚ} (hs : s.Pairwise (· ≤ ·)) {i j : ℕ}
    (hij : i ≤ j) (hj : j < s.length) : s.getD i 0 ≤ s.getD j 0 := by
  rcases Nat.eq_or_lt_of_le hij with rfl | hlt
  · exact le_refl _
  · rw [List.getD_eq_getElem s 0 (lt_of_le_of_lt hij hj), List.getD_eq_getElem s 0 hj]
    exact List.pairwise_iff_getElem.mp hs i j (lt_of_le_of_lt hij hj) hj hlt

theorem quantileSorted_mono (s : List ℚ) (hs : s.Pairwise (· ≤ ·)) (hne : s ≠ [])
    {q1 q2 : ℚ} (h0 : 0 ≤ q1) (h12 : q1 ≤ q2) (h21 : q2 ≤ 1) :
    quantileSorted s q1 ≤ quantileSorted s q2 := by
  have hn : 1 ≤ s.length := List.length_pos.mpr hne
  have hn1 : (0:ℚ) ≤ (s.length : ℚ) - 1 := by
    have h1 : (1:ℚ) ≤ (s.length : ℚ) := by exact_mod_cast hn
    linarith
  set h1v : ℚ := q1 * ((s.length : ℚ) - 1) with hh1
  set h2v : ℚ := q2 * ((s.length : ℚ) - 1) with hh2
  have h1nonneg : 0 ≤ h1v := mul_nonneg h0 hn1
  have h2nonneg : 0 ≤ h2v := mul_nonneg (le_trans h0 h12) hn1
  have h12v : h1v ≤ h2v := mul_le_mul_of_nonneg_right h12 hn1
  have h2top : h2v ≤ (s.length : ℚ) - 1 := by
    calc h2v = q2 * ((s.length : ℚ) - 1) := hh2
    _ ≤ 1 * ((s.length : ℚ) - 1) := mul_le_mul_of_nonneg_right h21 hn1
    _ = (s.length : ℚ) - 1 := one_mul _
  have hf1 : (0:ℤ) ≤ ⌊h1v⌋ := Int.floor_nonneg.mpr h1nonneg
  have hf2 : (0:ℤ) ≤ ⌊h2v⌋ := Int.floor_nonneg.mpr h2nonneg
  have hi1cast : ((⌊h1v⌋.toNat : ℕ) : ℚ) = (⌊h1v⌋ : ℚ) := by
    exact_mod_cast congrArg (fun z : ℤ => (z : ℚ)) (Int.toNat_of_nonneg hf1)
  have hi2cast : ((⌊h2v⌋.toNat : ℕ) : ℚ) = (⌊h2v⌋ : ℚ) := by
    exact_mod_cast congrArg (fun z : ℤ => (z : ℚ)) (Int.toNat_of_nonneg hf2)
  have hi12 : ⌊h1v⌋.toNat ≤ ⌊h2v⌋.toNat := by
    have := Int.floor_mono h12v
    omega
  have hfloor2top : ⌊h2v⌋ ≤ (s.length : ℤ) - 1 := by
    have hcast : ((s.length : ℤ) - 1 : ℤ) = ⌊((s.length : ℚ) - 1 : ℚ)⌋ := by
      rw [show ((s.length : ℚ) - 1 : ℚ) = (((s.length : ℤ) - 1 : ℤ) : ℚ) by push_cast; ring]
      rw [Int.floor_intCast]
    rw [hcast]
    exact Int.floor_mono h2top
  have hi2lt : ⌊h2v⌋.toNat < s.length := by omega
  have hi1lt : ⌊h1v⌋.toNat < s.length := lt_of_le_of_lt hi12 hi2lt
  have hg1lo : (0:ℚ) ≤ h1v - (⌊h1v⌋.toNat : ℚ) := by
    rw [hi1cast]
    have := Int.floor_le h1v
    linarith
  have hg1hi : h1v - (⌊h1v⌋.toNat : ℚ) ≤ 1 := by
    rw [hi1cast]
    have := Int.lt_floor_add_one h1v
    linarith
  have hg2lo : (0:ℚ) ≤ h2v - (⌊h2v⌋.toNat : ℚ) := by
    rw [hi2cast]
    have := Int.floor_le h2v
    linarith
  have hg2hi : h2v - (⌊h2v⌋.toNat : ℚ) ≤ 1 := by
    rw [hi2cast]
    have := Int.lt_floor_add_one h2v
    linarith
  rcases Nat.eq_or_lt_of_le hi12 with heq | hlt
  · -- same lower index: interpolate inside the same segment
    simp only [quantileSorted, nthOr_eq_getD]
    rw [← heq]
    set i := ⌊h1v⌋.toNat with hidef
    have hg12 : h1v - (i : ℚ) ≤ h2v - (i : ℚ) := by linarith
    by_cases hnext : i + 1 < s.length
    · have hlohi : s.getD i 0 ≤ s.getD (i + 1) (s.getD i 0) := by
        rw [List.getD_eq_getElem s _ hnext]
        rw [List.getD_eq_getElem s 0 hi1lt]
        rw [← List.getD_eq_getElem s 0 hnext]
        rw [← List.getD_eq_getElem s 0 hi1lt]
        exact sorted_getD_mono hs (Nat.le_succ i) hnext
      nlinarith [hlohi, hg12, hg1lo]
    · have hdef : s.getD (i + 1) (s.getD i 0) = s.getD i 0 := by
        apply List.getD_eq_default
        omega
      rw [hdef]
      simp
  · -- strictly larger lower index
    set i1 := ⌊h1v⌋.toNat with hi1def
    set i2 := ⌊h2v⌋.toNat with hi2def
    have hnext1 : i1 + 1 < s.length ∨ i1 + 1 = s.length := by omega
    have hstep1 : i1 + 1 ≤ i2 := hlt
    -- v1 ≤ s[i1+1] ≤ s[i2] ≤ v2
    have hi1succ_lt : i1 + 1 < s.length := by omega
    have hlo1hi1 : s.getD i1 0 ≤ s.getD (i1 + 1) (s.getD i1 0) := by
      rw [List.getD_eq_getElem s _ hi1succ_lt, List.getD_eq_getElem s 0 hi1lt,
        ← List.getD_eq_getElem s 0 hi1succ_lt, ← List.getD_eq_getElem s 0 hi1lt]
      exact sorted_getD_mono hs (Nat.le_succ i1) hi1succ_lt
    have hv1 : quantileSorted s q1 ≤ s.getD (i1 + 1) (s.getD i1 0) := by
      simp only [quantileSorted, nthOr_eq_getD]
      nlinarith [hlo1hi1, hg1lo, hg1hi]
    have hmid : s.getD (i1 + 1) (s.getD i1 0) ≤ s.getD i2 0 := by
      rw [List.getD_eq_getElem s _ hi1succ_lt, ← List.getD_eq_getElem s 0 hi1succ_lt]
      exact sorted_getD_mono hs hstep1 hi2lt
    have hv2 : s.getD i2 0 ≤ quantileSorted s q2 := by
      simp only [quantileSorted, nthOr_eq_getD]
      by_cases hnext : i2 + 1 < s.length
      · have hlohi : s.getD i2 0 ≤ s.getD (i2 + 1) (s.getD i2 0) := by
          rw [List.getD_eq_getElem s _ hnext, List.getD_eq_getElem s 0 hi2lt,
            ← List.getD_eq_getElem s 0 hnext, ← List.getD_eq_getElem s 0 hi2lt]
          exact sorted_getD_mono hs (Nat.le_succ i2) hnext
        nlinarith [hlohi, hg2lo]
      · have hdef : s.getD (i2 + 1) (s.getD i2 0) = s.getD i2 0 := by
          apply List.getD_eq_default
          omega
        rw [hdef]
        simp
    exact le_trans (le_trans hv1 hmid) hv2

theorem quantile_mono (vals : List ℚ) {q1 q2 : ℚ}
    (h0 : 0 ≤ q1) (h12 : q1 ≤ q2) (h21 : q2 ≤ 1) :
    quantile vals q1 ≤ quantile vals q2 := by
  by_cases hempty : vals.isEmpty
  · simp [quantile, hempty]
  · simp only [quantile, hempty, Bool.false_eq_true, if_false]
    apply quantileSorted_mono _ (sorted_pairwise_insSort_qLeB vals) _ h0 h12 h21
    intro hnil
    have := length_insSort qLeB vals
    rw [hnil] at this
    simp only [List.length_nil] at this
    rw [List.isEmpty_iff] at hempty
    exact hempty (List.length_eq_zero.mp this.symm)

theorem quantile_q1_le_q3 (vals : List ℚ) :
    quantile vals (1/4) ≤ quantile vals (3/4) :=
  quantile_mono vals (by norm_num) (by norm_num) (by norm_num)

/-! ## Lemmas about the anomaly detector -/

theorem identify_anomalies_eq (dur : α → ℚ) (rows : List α) (k : ℚ) :
    identify_anomalies dur rows k
      = (rows.filter (fun r =>
            decide (dur r < anomalyLowerBound dur rows k)
            || decide (anomalyUpperBound dur rows k < dur r))).map
          (fun r => (r,
            if anomalyUpperBound dur rows k < dur r then "Larga"
            else if dur r < anomalyLowerBound dur rows k then "Corta"
            else "Normal")) := rfl

theorem mem_identify_anomalies {dur : α → ℚ} {rows : List α} {k : ℚ} {r : α} {t : String} :
    (r, t) ∈ identify_anomalies dur rows k ↔
      r ∈ rows
      ∧ (dur r < anomalyLowerBound dur rows k ∨ anomalyUpperBound dur rows k < dur r)
      ∧ t = (if anomalyUpperBound dur rows k < dur r then "Larga"
             else if dur r < anomalyLowerBound dur rows k then "Corta"
             else "Normal") := by
  rw [identify_anomalies_eq, mem_map_pair, List.mem_filter]
  simp only [Bool.or_eq_true, decide_eq_true_eq]
  tauto

theorem identify_anomalies_no_normal (dur : α → ℚ) (rows : List α) (k : ℚ) :
    ∀ p ∈ identify_anomalies dur rows k, p.1 ∈ rows ∧ (p.2 = "Corta" ∨ p.2 = "Larga") := by
  intro p hp
  have hmem : (p.1, p.2) ∈ identify_anomalies dur rows k := hp
  rcases mem_identify_anomalies.mp hmem with ⟨hr, hcond, htag⟩
  refine ⟨hr, ?_⟩
  by_cases hub : anomalyUpperBound dur rows k < dur p.1
  · rw [if_pos hub] at htag
    exact Or.inr htag
  · rw [if_neg hub] at htag
    rcases hcond with hlb | hub2
    · rw [if_pos hlb] at htag
      exact Or.inl htag
    · exact absurd hub2 hub

/-! ## Claim theorems -/

/-- Claim C2: for every input set of durations and every non-negative
multiplier k, `identify_anomalies` computes
`lower_bound = Q1 - k*IQR` and `upper_bound = Q3 + k*IQR` from the 25th
and 75th linear-interpolation percentiles, tags exactly the records
strictly below the lower bound `Corta` (Short) and exactly those
strictly above the upper bound `Larga` (Long), and returns only such
outliers — no `Normal` entry appears and in-range records are absent. -/
theorem claim_C2_anomaly_iqr_contract (dur : α → ℚ) (rows : List α) (k : ℚ)
    (hk : 0 ≤ k) :
    (∀ r ∈ rows,
      ((r, "Corta") ∈ identify_anomalies dur rows k
          ↔ dur r < anomalyLowerBound dur rows k)
      ∧ ((r, "Larga") ∈ identify_anomalies dur rows k
          ↔ anomalyUpperBound dur rows k < dur r))
    ∧ (∀ p ∈ identify_anomalies dur rows k, p.1 ∈ rows ∧ (p.2 = "Corta" ∨ p.2 = "Larga"))
    ∧ (∀ r ∈ rows,
        ¬ dur r < anomalyLowerBound dur rows k →
        ¬ anomalyUpperBound dur rows k < dur r →
        ∀ t, (r, t) ∉ identify_anomalies dur rows k)
    ∧ anomalyLowerBound dur rows k
        = quantile (rows.map dur) (1/4)
          - k * (quantile (rows.map dur) (3/4) - quantile (rows.map dur) (1/4))
    ∧ anomalyUpperBound dur rows k
        = quantile (rows.map dur) (3/4)
          + k * (quantile (rows.map dur) (3/4) - quantile (rows.map dur) (1/4)) := by
  have hq := quantile_q1_le_q3 (rows.map dur)
  have hlbub : anomalyLowerBound dur rows k ≤ anomalyUpperBound dur rows k := by
    unfold anomalyLowerBound anomalyUpperBound
    nlinarith
  refine ⟨?_, identify_anomalies_no_normal dur rows k, ?_, rfl, rfl⟩
  · intro r hr
    constructor
    · constructor
      · intro hmem
        rcases mem_identify_anomalies.mp hmem with ⟨_, _, htag⟩
        by_cases hub : anomalyUpperBound dur rows k < dur r
        · rw [if_pos hub] at htag
          exact absurd htag (by decide)
        · rw [if_neg hub] at htag
          by_cases hlb : dur r < anomalyLowerBound dur rows k
          · exact hlb
          · rw [if_neg hlb] at htag
            exact absurd htag (by decide)
      · intro hlb
        have hub : ¬ anomalyUpperBound dur rows k < dur r := by
          intro hub
          exact absurd (lt_trans hlb (lt_of_le_of_lt hlbub hub)) (lt_irrefl _)
        exact mem_identify_anomalies.mpr
          ⟨hr, Or.inl hlb, by rw [if_neg hub, if_pos hlb]⟩
    · constructor
      · intro hmem
        rcases mem_identify_anomalies.mp hmem with ⟨_, _, htag⟩
        by_cases hub : anomalyUpperBound dur rows k < dur r
        · exact hub
        · rw [if_neg hub] at htag
          by_cases hlb : dur r < anomalyLowerBound dur rows k
          · rw [if_pos hlb] at htag
            exact absurd htag (by decide)
          · rw [if_neg hlb] at htag
            exact absurd htag (by decide)
      · intro hub
        exact mem_identify_anomalies.mpr ⟨hr, Or.inr hub, by rw [if_pos hub]⟩
  · intro r _ hlb hub t hmem
    rcases mem_identify_anomalies.mp hmem with ⟨_, hcond, _⟩
    rcases hcond with h | h
    · exact hlb h
    · exact hub h

/-- Witness for C2, the P4 boundary instance: the distribution
`[10,10,10,10,10,20,20,20,30,40]` has Q1 = 10 and Q3 = 20, so with
k = 1.5 the bounds are -5 and 35; the record of duration 40 is tagged
`Larga` and the record of duration 30 is absent from the output. -/
theorem claim_C2_anomaly_iqr_contract_witness :
    quantile (([10,10,10,10,10,20,20,20,30,40] : List ℚ).map id) (1/4) = 10
    ∧ quantile (([10,10,10,10,10,20,20,20,30,40] : List ℚ).map id) (3/4) = 20
    ∧ anomalyLowerBound id ([10,10,10,10,10,20,20,20,30,40] : List ℚ) (3/2) = -5
    ∧ anomalyUpperBound id ([10,10,10,10,10,20,20,20,30,40] : List ℚ) (3/2) = 35
    ∧ ((40:ℚ), "Larga") ∈ identify_anomalies id ([10,10,10,10,10,20,20,20,30,40] : List ℚ) (3/2)
    ∧ ∀ t, ((30:ℚ), t) ∉ identify_anomalies id ([10,10,10,10,10,20,20,20,30,40] : List ℚ) (3/2) := by
  have hq1 : quantile (([10,10,10,10,10,20,20,20,30,40] : List ℚ).map id) (1/4) = 10 := by
    rw [List.map_id, quantile]
    norm_num [insSort, insertSorted, qLeB]
    rw [quantileSorted]
    norm_num [nthOr]
  have hq3 : quantile (([10,10,10,10,10,20,20,20,30,40] : List ℚ).map id) (3/4) = 20 := by
    rw [List.map_id, quantile]
    norm_num [insSort, insertSorted, qLeB]
    rw [quantileSorted]
    norm_num [nthOr]
  have hc := claim_C2_anomaly_iqr_contract id ([10,10,10,10,10,20,20,20,30,40] : List ℚ)
    (3/2) (by norm_num)
  have hlb : anomalyLowerBound id ([10,10,10,10,10,20,20,20,30,40] : List ℚ) (3/2) = -5 := by
    rw [hc.2.2.2.1, hq1, hq3]
    norm_num
  have hub : anomalyUpperBound id ([10,10,10,10,10,20,20,20,30,40] : List ℚ) (3/2) = 35 := by
    rw [hc.2.2.2.2, hq1, hq3]
    norm_num
  refine ⟨hq1, hq3, hlb, hub, ?_, ?_⟩
  · exact ((hc.1 40 (by norm_num)).2).mpr (by rw [hub]; norm_num)
  · intro t
    exact hc.2.2.1 30 (by norm_num) (by rw [hlb]; norm_num) (by rw [hub]; norm_num) t

/-- Claim C6: for every input set of durations and every multiplier, no
record is tagged both `Corta` (Short) and `Larga` (Long): the tag of a
record in the output is unique (determined by its duration), every
output entry carries exactly one of the two outlier classifications, and
a record absent from the output carries none. -/
theorem claim_C6_anomaly_exclusive (dur : α → ℚ) (rows : List α) (k : ℚ) :
    (∀ r : α, ¬(((r, "Corta") ∈ identify_anomalies dur rows k)
        ∧ ((r, "Larga") ∈ identify_anomalies dur rows k)))
    ∧ (∀ (r : α) (t1 t2 : String),
        (r, t1) ∈ identify_anomalies dur rows k →
        (r, t2) ∈ identify_anomalies dur rows k → t1 = t2)
    ∧ (∀ p ∈ identify_anomalies dur rows k,
        (p.2 = "Corta" ∨ p.2 = "Larga") ∧ ¬(p.2 = "Corta" ∧ p.2 = "Larga")) := by
  have hfun : ∀ (r : α) (t1 t2 : String),
      (r, t1) ∈ identify_anomalies dur rows k →
      (r, t2) ∈ identify_anomalies dur rows k → t1 = t2 := by
    intro r t1 t2 h1 h2
    rcases mem_identify_anomalies.mp h1 with ⟨_, _, ht1⟩
    rcases mem_identify_anomalies.mp h2 with ⟨_, _, ht2⟩
    rw [ht1, ht2]
  refine ⟨?_, hfun, ?_⟩
  · rintro r ⟨hc, hl⟩
    exact absurd (hfun r "Corta" "Larga" hc hl) (by decide)
  · intro p hp
    refine ⟨(identify_anomalies_no_normal dur rows k p hp).2, ?_⟩
    rintro ⟨hc, hl⟩
    rw [hc] at hl
    exact absurd hl (by decide)

/-- Witness for C6 at a concrete distribution: the record of duration 9
is not tagged both ways. -/
theorem claim_C6_anomaly_exclusive_witness :
    ¬(((9:ℚ), "Corta") ∈ identify_anomalies id ([1,5,5,5,5,9] : List ℚ) (3/2)
      ∧ ((9:ℚ), "Larga") ∈ identify_anomalies id ([1,5,5,5,5,9] : List ℚ) (3/2)) :=
  (claim_C6_anomaly_exclusive id ([1,5,5,5,5,9] : List ℚ) (3/2)).1 9

/-- Claim C8: whenever the two quartiles coincide (IQR = 0, as happens
with fewer than 4 distinct values), `identify_anomalies` raises no error
and applies no special case: both bounds equal the common quartile `c`
and the output is exactly the records whose duration differs from `c`,
tagged `Larga` above and `Corta` below. -/
theorem claim_C8_degenerate_iqr (dur : α → ℚ) (rows : List α) (k c : ℚ)
    (h1 : quantile (rows.map dur) (1/4) = c)
    (h3 : quantile (rows.map dur) (3/4) = c) :
    anomalyLowerBound dur rows k = c
    ∧ anomalyUpperBound dur rows k = c
    ∧ identify_anomalies dur rows k
        = (rows.filter (fun r => decide (dur r ≠ c))).map
            (fun r => (r, if c < dur r then "Larga" else "Corta")) := by
  have hlb : anomalyLowerBound dur rows k = c := by
    unfold anomalyLowerBound
    rw [h1, h3]
    ring
  have hub : anomalyUpperBound dur rows k = c := by
    unfold anomalyUpperBound
    rw [h1, h3]
    ring
  refine ⟨hlb, hub, ?_⟩
  rw [identify_anomalies_eq, hlb, hub]
  have hfilter : rows.filter (fun r => decide (dur r < c) || decide (c < dur r))
      = rows.filter (fun r => decide (dur r ≠ c)) := by
    apply List.filter_congr
    intro r _
    by_cases h : dur r = c
    · simp [h]
    · rcases lt_or_gt_of_ne h with hlt | hgt
      · simp [h, hlt]
      · simp [h, hgt, le_of_lt hgt, not_lt.mpr (le_of_lt hgt)]
  rw [hfilter]
  apply List.map_congr_left
  intro r hr
  have hne : dur r ≠ c := by
    have := List.of_mem_filter hr
    simpa using this
  by_cases hgt : c < dur r
  · simp [hgt]
  · have hlt : dur r < c := lt_of_le_of_ne (le_of_not_lt hgt) hne
    simp [hgt, hlt]

/-- Witness for C8: the distribution `[1,5,5,5,5,9]` (two distinct
values) has Q1 = Q3 = 5, both bounds are 5, and the output tags 1
`Corta` and 9 `Larga`. -/
theorem claim_C8_degenerate_iqr_witness :
    anomalyLowerBound id ([1,5,5,5,5,9] : List ℚ) (3/2) = 5
    ∧ anomalyUpperBound id ([1,5,5,5,5,9] : List ℚ) (3/2) = 5
    ∧ identify_anomalies id ([1,5,5,5,5,9] : List ℚ) (3/2)
        = [((1:ℚ), "Corta"), ((9:ℚ), "Larga")] := by
  have hq1 : quantile (([1,5,5,5,5,9] : List ℚ).map id) (1/4) = 5 := by
    rw [List.map_id, quantile]
    norm_num [insSort, insertSorted, qLeB]
    rw [quantileSorted]
    norm_num [nthOr]
  have hq3 : quantile (([1,5,5,5,5,9] : List ℚ).map id) (3/4) = 5 := by
    rw [List.map_id, quantile]
    norm_num [insSort, insertSorted, qLeB]
    rw [quantileSorted]
    norm_num [nthOr]
  have hc := claim_C8_degenerate_iqr id ([1,5,5,5,5,9] : List ℚ) (3/2) 5 hq1 hq3
  refine ⟨hc.1, hc.2.1, ?_⟩
  rw [hc.2.2]
  norm_num [List.filter]

/-- Counterexample to claim C1 as stated: `calculate_service_duration`
replaces the negative duration of a row arriving at second 60 and
leaving at second 0 by NaN (`none`) instead of retaining its signed
value, and the validity flag computed by `excel_processor` for a
zero-length stay is `false` although the duration 0 is `≥ 0`. -/
theorem claim_C1_counterexample :
    calculate_service_duration ["Hora de llegada", "Hora de salida"]
        [⟨"T", "M", some 60, some 0⟩]
      = .ok [⟨"T", "M", some 60, some 0, none⟩]
    ∧ (mkRecord 0 0).esTiempoValido = false
    ∧ ((0:ℚ) - 0 ≥ 0) := by
  refine ⟨?_, ?_, by norm_num⟩
  · rw [calculate_service_duration]
    norm_num [timeRequiredColumns, rawDurationMin, nullifyNegative]
  · norm_num [mkRecord]

/-- Claim C1 amended: every normalized record yields exactly one
duration without an exception; in `calculate_service_duration` a
negative duration is replaced by NaN (not retained) while non-negative
ones (zero included) are kept, and in `excel_processor` the signed
duration is retained but the validity flag is true iff the duration is
strictly positive. -/
theorem claim_C1_amended (columns : List String) (rows : List TRow)
    (hcols : timeRequiredColumns.all (fun c => columns.contains c) = true) :
    calculate_service_duration columns rows
        = .ok (rows.map (fun r =>
            ⟨r.tecnico, r.modelo, r.llegada, r.salida, nullifyNegative (rawDurationMin r)⟩))
    ∧ (∀ res, calculate_service_duration columns rows = .ok res →
        res.length = rows.length)
    ∧ (∀ q : ℚ, q < 0 → nullifyNegative (some q) = none)
    ∧ (∀ q : ℚ, 0 ≤ q → nullifyNegative (some q) = some q)
    ∧ (∀ a s : ℚ, (mkRecord a s).tiempoSeconds = s - a
        ∧ ((mkRecord a s).esTiempoValido = true ↔ 0 < s - a)) := by
  have hok : calculate_service_duration columns rows
      = .ok (rows.map (fun r =>
          ⟨r.tecnico, r.modelo, r.llegada, r.salida, nullifyNegative (rawDurationMin r)⟩)) := by
    rw [calculate_service_duration, if_pos hcols]
  refine ⟨hok, ?_, ?_, ?_, ?_⟩
  · intro res hres
    rw [hok] at hres
    have := Except.ok.inj hres
    rw [← this]
    exact List.length_map rows _
  · intro q hq
    simp [nullifyNegative, hq]
  · intro q hq
    simp [nullifyNegative, not_lt.mpr hq]
  · intro a s
    refine ⟨rfl, ?_⟩
    simp [mkRecord]

/-- Witness for the amended C1: a 120-second stay becomes a 2-minute
duration, and the zero and negative cases behave as stated. -/
theorem claim_C1_amended_witness :
    calculate_service_duration ["Hora de llegada", "Hora de salida"]
        [⟨"T", "M", some 0, some 120⟩]
      = .ok [⟨"T", "M", some 0, some 120, some 2⟩]
    ∧ nullifyNegative (some (-1 : ℚ)) = none
    ∧ nullifyNegative (some (0 : ℚ)) = some 0
    ∧ (mkRecord 0 120).tiempoSeconds = 120 := by
  have h := claim_C1_amended ["Hora de llegada", "Hora de salida"]
    [⟨"T", "M", some 0, some 120⟩] (by decide)
  refine ⟨?_, h.2.2.1 (-1) (by norm_num), h.2.2.2.1 0 (by norm_num),
    by rw [(h.2.2.2.2 0 120).1]; norm_num⟩
  rw [h.1]
  norm_num [rawDurationMin, nullifyNegative]

set_option maxRecDepth 4000 in
/-- Counterexample to claim C3 as stated: on a frame missing both
timestamp columns, `process_excel_file` raises a schema error naming
only the first missing column — `Hora de salida` is among the missing
columns but is not named in the message. -/
theorem claim_C3_counterexample :
    process_excel_file ⟨["Nombre del oficial técnico que brinda servicio"], []⟩
      = .error "Error al procesar el archivo Excel: El archivo Excel no contiene la columna: Hora de llegada"
    ∧ "Hora de salida"
        ∈ missingColumns requiredColumns ["Nombre del oficial técnico que brinda servicio"]
    ∧ ¬ mentions
        "Error al procesar el archivo Excel: El archivo Excel no contiene la columna: Hora de llegada"
        "Hora de salida" := by
  refine ⟨?_, by decide, by decide⟩
  rfl

/-- Claim C3 amended: each entry point validates the schema before any
row is read — the result on a deficient column list is the same error
whatever the rows are — and the error names the missing columns, except
that `process_excel_file` names only the FIRST missing required column
while `validate_required_columns` and `calculate_service_duration` name
all of them, joined by commas. -/
theorem claim_C3_amended :
    (∀ columns required : List String,
        missingColumns required columns ≠ [] →
        validate_required_columns columns required
          = .error ("Faltan columnas necesarias: "
              ++ String.intercalate ", " (missingColumns required columns)))
    ∧ (∀ (columns : List String) (rows rows2 : List TRow),
        timeRequiredColumns.all (fun c => columns.contains c) = false →
        calculate_service_duration columns rows
            = .error ("Faltan columnas necesarias: "
                ++ String.intercalate ", " (missingColumns timeRequiredColumns columns))
          ∧ calculate_service_duration columns rows
            = calculate_service_duration columns rows2)
    ∧ (∀ (columns : List String) (rows rows2 : List XRow) (c : String),
        requiredColumns.find? (fun c => !columns.contains c) = some c →
        process_excel_file ⟨columns, rows⟩
            = .error (wrapExcelError ("El archivo Excel no contiene la columna: " ++ c))
          ∧ process_excel_file ⟨columns, rows⟩ = process_excel_file ⟨columns, rows2⟩) := by
  refine ⟨?_, ?_, ?_⟩
  · intro columns required hne
    rw [validate_required_columns]
    simp only [missingColumns] at hne ⊢
    rw [if_neg (by simpa [List.isEmpty_iff] using hne)]
  · intro columns rows rows2 hall
    constructor
    · rw [calculate_service_duration]
      simp only [hall, Bool.false_eq_true, if_false]
      rfl
    · rw [calculate_service_duration, calculate_service_duration]
      simp only [hall, Bool.false_eq_true, if_false]
  · intro columns rows rows2 c hfind
    constructor
    · rw [process_excel_file]
      simp only [hfind]
    · rw [process_excel_file]
      simp only [hfind]
      rw [process_excel_file]
      simp only [hfind]

/-- Witness for the amended C3: concrete deficient frames produce the
stated errors independently of the rows, `validate_required_columns`
and `calculate_service_duration` name every missing column, and
`process_excel_file` names the first. -/
theorem claim_C3_amended_witness :
    validate_required_columns ["Hora de llegada"] timeRequiredColumns
      = .error "Faltan columnas necesarias: Hora de salida"
    ∧ calculate_service_duration [] []
      = .error "Faltan columnas necesarias: Hora de llegada, Hora de salida"
    ∧ process_excel_file ⟨[], []⟩
      = .error "Error al procesar el archivo Excel: El archivo Excel no contiene la columna: Nombre del oficial técnico que brinda servicio"
    ∧ calculate_service_duration [] []
      = calculate_service_duration []
          [⟨"T", "M", some 0, some 1⟩]
    ∧ mentions "Faltan columnas necesarias: Hora de llegada, Hora de salida" "Hora de llegada"
    ∧ mentions "Faltan columnas necesarias: Hora de llegada, Hora de salida" "Hora de salida" := by
  have h1 := claim_C3_amended.1 ["Hora de llegada"] timeRequiredColumns (by decide)
  have h2 := claim_C3_amended.2.1 ([] : List String) [] [⟨"T", "M", some 0, some 1⟩] (by decide)
  have h3 := claim_C3_amended.2.2 ([] : List String) [] []
    "Nombre del oficial técnico que brinda servicio" (by decide)
  exact ⟨by rw [h1]; rfl, by rw [h2.1]; rfl, by rw [h3.1]; rfl, h2.2, by decide, by decide⟩

/-! ## Lemmas about grouping and aggregation -/

theorem char_eq_of_toNat_eq {a b : Char} (h : a.toNat = b.toNat) : a = b := by
  apply Char.ext
  cases hv : a.val
  cases hw : b.val
  have h2 : a.val.toNat = b.val.toNat := h
  rw [hv, hw] at h2
  congr 1
  exact BitVec.eq_of_toNat_eq h2

theorem lexLtB_eq_of_not_lt :
    ∀ as bs : List Char, lexLtB as bs = false → lexLtB bs as = false → as = bs := by
  intro as
  induction as with
  | nil =>
    intro bs h1 _
    cases bs with
    | nil => rfl
    | cons b bs2 => simp [lexLtB] at h1
  | cons a as2 ih =>
    intro bs h1 h2
    cases bs with
    | nil => simp [lexLtB] at h2
    | cons b bs2 =>
      simp only [lexLtB] at h1 h2
      by_cases hab : a.toNat < b.toNat
      · simp [hab] at h1
      · by_cases hba : b.toNat < a.toNat
        · simp [hba] at h2
        · simp only [hab, hba, if_false] at h1 h2
          have hhead : a = b := char_eq_of_toNat_eq (by omega)
          rw [hhead, ih bs2 h1 h2]

theorem strLtB_of_le_of_ne {a b : String}
    (hle : strLeB a b = true) (hne : a ≠ b) : strLtB a b = true := by
  by_cases h : strLtB a b
  · exact h
  · exfalso
    apply hne
    apply String.ext
    have h1 : lexLtB a.data b.data = false := by simpa [strLtB] using h
    have h2 : lexLtB b.data a.data = false := by simpa [strLeB, strLtB] using hle
    exact lexLtB_eq_of_not_lt a.data b.data h1 h2

theorem length_filterMap_isSome (f : α → Option β) :
    ∀ l : List α, (l.filterMap f).length = (l.filter (fun x => (f x).isSome)).length := by
  intro l
  induction l with
  | nil => simp
  | cons x xs ih =>
    rcases hx : f x with _ | y
    · rw [List.filterMap_cons_none hx, List.filter_cons]
      simp [hx, ih]
    · rw [List.filterMap_cons_some hx, List.filter_cons]
      simp [hx, ih]

theorem groupKeys_nodup (keyOf : DRow → String) (rows : List DRow) :
    (groupKeys keyOf rows).Nodup :=
  nodup_insSort strLeB (nodup_dedupKeepFirst _)

theorem mem_groupKeys {keyOf : DRow → String} {rows : List DRow} {k : String} :
    k ∈ groupKeys keyOf rows ↔ k ∈ rows.map keyOf := by
  rw [groupKeys, mem_insSort, mem_dedupKeepFirst]

theorem groupKeys_pairwise_lt (keyOf : DRow → String) (rows : List DRow) :
    (groupKeys keyOf rows).Pairwise (fun a b => strLtB a b = true) := by
  have hsorted := pairwise_insSort strLeB (fun _ _ => True) strLeB_total strLeB_trans
    (dedupKeepFirst (rows.map keyOf))
    (List.pairwise_iff_forall_sublist.mpr (by intro a b _; trivial))
  have hle : (groupKeys keyOf rows).Pairwise (fun a b => strLeB a b = true) := by
    rw [groupKeys]
    exact hsorted.imp (fun h => h.1)
  have hnodup := groupKeys_nodup keyOf rows
  have hne : (groupKeys keyOf rows).Pairwise (fun a b => a ≠ b) := hnodup
  exact (hle.and hne).imp (fun h => strLtB_of_le_of_ne h.1 h.2)

theorem exists_group_rep {keyOf : DRow → String} {rows : List DRow} {row : AggRow}
    (h : row ∈ aggregateBy keyOf rows) :
    row.key ∈ rows.map keyOf
    ∧ row = aggRowFor row.key
        ((rows.filter (fun r => keyOf r == row.key)).filterMap (fun r => r.durMin)) := by
  rw [aggregateBy, mem_insSort] at h
  rcases List.mem_map.mp h with ⟨k, hk, hrow⟩
  have hkey : row.key = k := by rw [← hrow]; rfl
  subst hkey
  exact ⟨mem_groupKeys.mp hk, hrow.symm⟩

theorem aggRowFor_mem_aggregateBy {keyOf : DRow → String} {rows : List DRow} {k : String}
    (hk : k ∈ rows.map keyOf) :
    aggRowFor k ((rows.filter (fun r => keyOf r == k)).filterMap (fun r => r.durMin))
      ∈ aggregateBy keyOf rows := by
  rw [aggregateBy, mem_insSort]
  exact List.mem_map.mpr ⟨k, mem_groupKeys.mpr hk, rfl⟩

theorem aggregateBy_count_sum (keyOf : DRow → String) (rows : List DRow) :
    ((aggregateBy keyOf rows).map (fun a => a.count)).sum
      = (rows.filter (fun r => r.durMin.isSome)).length := by
  have hperm : ((aggregateBy keyOf rows).map (fun a => a.count)).Perm
      (((groupKeys keyOf rows).map (fun k =>
        aggRowFor k ((rows.filter (fun r => keyOf r == k)).filterMap (fun r => r.durMin)))).map
          (fun a => a.count)) :=
    (perm_insSort aggLe _).map _
  rw [hperm.sum_eq, List.map_map]
  have hcount : ∀ k : String,
      ((fun a : AggRow => a.count) ∘ (fun k => aggRowFor k
          ((rows.filter (fun r => keyOf r == k)).filterMap (fun r => r.durMin)))) k
        = ((rows.filter (fun r => r.durMin.isSome)).filter (fun r => keyOf r == k)).length := by
    intro k
    show ((rows.filter (fun r => keyOf r == k)).filterMap (fun r => r.durMin)).length = _
    rw [length_filterMap_isSome]
    rw [List.filter_filter, List.filter_filter]
    congr 1
    apply List.filter_congr
    intro r _
    exact Bool.and_comm _ _
  rw [List.map_congr_left (fun k _ => hcount k)]
  apply sum_counts_partition keyOf (rows.filter (fun r => r.durMin.isSome))
    (groupKeys keyOf rows) (groupKeys_nodup keyOf rows)
  intro r hr
  exact mem_groupKeys.mpr (List.mem_map.mpr ⟨r, List.mem_of_mem_filter hr, rfl⟩)

theorem aggregateBy_pairwise (keyOf : DRow → String) (rows : List DRow) :
    (aggregateBy keyOf rows).Pairwise (fun a b =>
      aggLe a b = true ∧ (aggLe b a = true → strLtB a.key b.key = true)) := by
  rw [aggregateBy]
  apply pairwise_insSort aggLe (fun a b : AggRow => strLtB a.key b.key = true)
    aggLe_total aggLe_trans
  rw [List.pairwise_map]
  exact (groupKeys_pairwise_lt keyOf rows).imp (fun h => h)

theorem mkOfficer_valid_records (pairs : List (ℚ × ℚ)) :
    (mkOfficer pairs).valid_records
      = (pairs.filter (fun p => decide (0 < p.2 - p.1))).length := by
  show ((pairs.map (fun p => p.2 - p.1)).filter (fun s => decide (0 < s))).length = _
  rw [List.filter_map, List.length_map]
  rfl

theorem aggregateBy_keys_iff (keyOf : DRow → String) (rows : List DRow) (k : String) :
    (∃ row ∈ aggregateBy keyOf rows, row.key = k) ↔ k ∈ rows.map keyOf := by
  constructor
  · rintro ⟨row, hrow, rfl⟩
    exact (exists_group_rep hrow).1
  · intro hk
    exact ⟨_, aggRowFor_mem_aggregateBy hk, rfl⟩

theorem aggregateBy_count_zero_iff {keyOf : DRow → String} {rows : List DRow}
    {row : AggRow} (h : row ∈ aggregateBy keyOf rows) :
    row.count = 0 ↔ ∀ r ∈ rows, keyOf r = row.key → r.durMin = none := by
  have hrep := (exists_group_rep h).2
  have hc : row.count
      = ((rows.filter (fun r => keyOf r == row.key)).filterMap (fun r => r.durMin)).length := by
    rw [hrep]
    rfl
  rw [hc, List.length_eq_zero, List.filterMap_eq_nil_iff]
  constructor
  · intro hall r hr hkey
    exact hall r (List.mem_filter.mpr ⟨hr, by simp [hkey]⟩)
  · intro hall r hr
    exact hall r (List.mem_of_mem_filter hr)
      (by simpa using List.of_mem_filter hr)

theorem excel_valid_records_sum (rows2 : List NRow) :
    ((insSort strLeB (dedupKeepFirst (rows2.map (fun r => r.oficial)))).map (fun k =>
        (mkOfficer ((rows2.filter (fun r => r.oficial == k)).map
          (fun r => (r.llegada, r.salida)))).valid_records)).sum
      = (rows2.filter (fun r => decide (0 < r.salida - r.llegada))).length := by
  have hsummand : ∀ k : String,
      (mkOfficer ((rows2.filter (fun r => r.oficial == k)).map
        (fun r => (r.llegada, r.salida)))).valid_records
      = ((rows2.filter (fun r => decide (0 < r.salida - r.llegada))).filter
          (fun r => r.oficial == k)).length := by
    intro k
    rw [mkOfficer_valid_records, List.filter_map, List.length_map,
      List.filter_filter, List.filter_filter]
    congr 1
    apply List.filter_congr
    intro r _
    show (decide (0 < r.salida - r.llegada) && (r.oficial == k))
        = ((r.oficial == k) && decide (0 < r.salida - r.llegada))
    exact Bool.and_comm _ _
  rw [List.map_congr_left (fun k _ => hsummand k)]
  apply sum_counts_partition (fun r : NRow => r.oficial)
    (rows2.filter (fun r => decide (0 < r.salida - r.llegada)))
    _ (nodup_insSort strLeB (nodup_dedupKeepFirst _))
  intro r hr
  rw [mem_insSort, mem_dedupKeepFirst]
  exact List.mem_map.mpr ⟨r, List.mem_of_mem_filter hr, rfl⟩

/-- Counterexample to claim C4 as stated: a group holding exactly one
record of duration 0 (a valid, non-negative duration per the claim) is
emitted by `excel_processor` with `valid_records = 0`, although one
record of the group has a non-negative duration. -/
theorem claim_C4_counterexample :
    (mkOfficer [((0:ℚ), (0:ℚ))]).valid_records = 0
    ∧ (([((0:ℚ), (0:ℚ))] : List (ℚ × ℚ)).filter
        (fun p => decide (0 ≤ p.2 - p.1))).length = 1 := by
  constructor
  · rw [mkOfficer_valid_records]
    norm_num [List.filter]
  · norm_num [List.filter]

/-- Claim C4 amended: in both `time_analyzer` aggregation passes every
emitted row is computed from exactly the records sharing its key that
carry a non-NaN duration (after `calculate_service_duration`, non-NaN
means non-negative), its count is the number of those records, and the
counts over all emitted rows sum to the total number of such records; in
`excel_processor` the per-officer `valid_records` counts exactly the
records with strictly positive duration and those counts sum to the
total number of strictly positive records. -/
theorem claim_C4_amended (rows : List DRow) (pairs : List (ℚ × ℚ)) (rows2 : List NRow) :
    (∀ row ∈ get_average_duration_by_technician rows,
        row = aggRowFor row.key
            ((rows.filter (fun r => r.tecnico == row.key)).filterMap (fun r => r.durMin))
          ∧ row.count
            = ((rows.filter (fun r => r.tecnico == row.key)).filterMap
                (fun r => r.durMin)).length)
    ∧ ((get_average_duration_by_technician rows).map (fun a => a.count)).sum
        = (rows.filter (fun r => r.durMin.isSome)).length
    ∧ (∀ row ∈ get_average_duration_by_terminal_model rows,
        row = aggRowFor row.key
            ((rows.filter (fun r => r.modelo == row.key)).filterMap (fun r => r.durMin))
          ∧ row.count
            = ((rows.filter (fun r => r.modelo == row.key)).filterMap
                (fun r => r.durMin)).length)
    ∧ ((get_average_duration_by_terminal_model rows).map (fun a => a.count)).sum
        = (rows.filter (fun r => r.durMin.isSome)).length
    ∧ (∀ q : ℚ, (nullifyNegative (some q)).isSome = true ↔ 0 ≤ q)
    ∧ (mkOfficer pairs).valid_records
        = (pairs.filter (fun p => decide (0 < p.2 - p.1))).length
    ∧ ((insSort strLeB (dedupKeepFirst (rows2.map (fun r => r.oficial)))).map (fun k =>
          (mkOfficer ((rows2.filter (fun r => r.oficial == k)).map
            (fun r => (r.llegada, r.salida)))).valid_records)).sum
        = (rows2.filter (fun r => decide (0 < r.salida - r.llegada))).length := by
  refine ⟨?_, aggregateBy_count_sum _ rows, ?_, aggregateBy_count_sum _ rows, ?_,
    mkOfficer_valid_records pairs, excel_valid_records_sum rows2⟩
  · intro row h
    have hrep := (exists_group_rep (h : row ∈ aggregateBy (fun r => r.tecnico) rows)).2
    exact ⟨hrep, by rw [hrep]; rfl⟩
  · intro row h
    have hrep := (exists_group_rep (h : row ∈ aggregateBy (fun r => r.modelo) rows)).2
    exact ⟨hrep, by rw [hrep]; rfl⟩
  · intro q
    constructor
    · intro h
      by_cases hq : q < 0
      · simp [nullifyNegative, hq] at h
      · exact le_of_not_lt hq
    · intro h
      have hq : ¬ q < 0 := not_lt.mpr h
      simp [nullifyNegative, hq]

/-- Witness for the amended C4 on one-record inputs: the technician
count sum is 1, excel `valid_records` counts the positive stay, and the
per-officer sums agree with the totals. -/
theorem claim_C4_amended_witness :
    ((get_average_duration_by_technician
        [⟨"T", "M", some 0, some 60, some 1⟩]).map (fun a => a.count)).sum = 1
    ∧ (mkOfficer [((0:ℚ), (60:ℚ))]).valid_records = 1
    ∧ ((insSort strLeB (dedupKeepFirst (([⟨"A", 0, 60⟩] : List NRow).map
          (fun r => r.oficial)))).map (fun k =>
        (mkOfficer ((([⟨"A", 0, 60⟩] : List NRow).filter
          (fun r => r.oficial == k)).map
            (fun r => (r.llegada, r.salida)))).valid_records)).sum = 1 := by
  have h := claim_C4_amended [⟨"T", "M", some 0, some 60, some 1⟩]
    [((0:ℚ), (60:ℚ))] [⟨"A", 0, 60⟩]
  refine ⟨?_, ?_, ?_⟩
  · rw [h.2.1]
    simp
  · rw [h.2.2.2.2.2.1]
    norm_num [List.filter]
  · rw [h.2.2.2.2.2.2]
    norm_num [List.filter]

/-- Counterexample to claim C5 as stated: on a dataset holding one
record for technician `T` whose duration was nulled (the negative
duration case), the aggregation still emits a row for `T`, and that row
has count 0. -/
theorem claim_C5_counterexample :
    ∃ row ∈ get_average_duration_by_technician [⟨"T", "M", some 60, some 0, none⟩],
      row.key = "T" ∧ row.count = 0 ∧ row.mean = none := by
  have hk : "T" ∈ ([⟨"T", "M", some 60, some 0, none⟩] : List DRow).map (fun r => r.tecnico) := by
    simp
  refine ⟨_, aggRowFor_mem_aggregateBy hk, rfl, ?_, ?_⟩
  · show (((([⟨"T", "M", some 60, some 0, none⟩] : List DRow)).filter
      (fun r => r.tecnico == "T")).filterMap (fun r => r.durMin)).length = 0
    simp
  · show meanOf ((([⟨"T", "M", some 60, some 0, none⟩] : List DRow).filter
      (fun r => r.tecnico == "T")).filterMap (fun r => r.durMin)) = none
    have : ((([⟨"T", "M", some 60, some 0, none⟩] : List DRow).filter
        (fun r => r.tecnico == "T")).filterMap (fun r => r.durMin)) = [] := by
      simp
    rw [this]
    rfl

/-- Claim C5 amended: every key present among the records of a grouping
pass is emitted — including keys whose records are all invalid — and an
emitted row has count 0 exactly when every record with its key has a
null duration; likewise `excel_processor` emits an officer entry for
every officer among the normalized rows, valid or not. -/
theorem claim_C5_amended (rows : List DRow) (rows2 : List NRow) :
    (∀ k : String,
      (∃ row ∈ get_average_duration_by_technician rows, row.key = k)
        ↔ k ∈ rows.map (fun r => r.tecnico))
    ∧ (∀ row ∈ get_average_duration_by_technician rows,
        (row.count = 0 ↔ ∀ r ∈ rows, r.tecnico = row.key → r.durMin = none))
    ∧ (∀ k : String,
      (∃ row ∈ get_average_duration_by_terminal_model rows, row.key = k)
        ↔ k ∈ rows.map (fun r => r.modelo))
    ∧ (∀ row ∈ get_average_duration_by_terminal_model rows,
        (row.count = 0 ↔ ∀ r ∈ rows, r.modelo = row.key → r.durMin = none))
    ∧ (∀ k : String,
        k ∈ insSort strLeB (dedupKeepFirst (rows2.map (fun r => r.oficial)))
          ↔ k ∈ rows2.map (fun r => r.oficial)) := by
  refine ⟨aggregateBy_keys_iff _ rows, ?_, aggregateBy_keys_iff _ rows, ?_, ?_⟩
  · intro row h
    exact aggregateBy_count_zero_iff (h : row ∈ aggregateBy (fun r => r.tecnico) rows)
  · intro row h
    exact aggregateBy_count_zero_iff (h : row ∈ aggregateBy (fun r => r.modelo) rows)
  · intro k
    rw [mem_insSort, mem_dedupKeepFirst]

/-- Witness for the amended C5: technician `T` of the one nulled record
is emitted, and its count is 0 because its only record has a null
duration. -/
theorem claim_C5_amended_witness :
    ("T" ∈ ([⟨"T", "M", some 60, some 0, none⟩] : List DRow).map (fun r => r.tecnico))
    ∧ (∃ row ∈ get_average_duration_by_technician [⟨"T", "M", some 60, some 0, none⟩],
        row.key = "T") := by
  have h := claim_C5_amended [⟨"T", "M", some 60, some 0, none⟩] []
  have hk : "T" ∈ ([⟨"T", "M", some 60, some 0, none⟩] : List DRow).map (fun r => r.tecnico) := by
    simp
  exact ⟨hk, (h.1 "T").mpr hk⟩

/-- Counterexample to claim C9 as stated: when a group with no valid
duration is emitted, its mean is NaN and the claimed pairwise
`mean ≤ mean` ordering fails — here the output is exactly one
defined-mean row followed by one NaN-mean row, and a NaN mean compares
false against everything, as in pandas. -/
theorem claim_C9_counterexample :
    get_average_duration_by_technician
        [⟨"A", "M", some 0, some (-60), none⟩, ⟨"B", "M", some 0, some 300, some 5⟩]
      = [⟨"B", some 5, 1, some 5, some 5⟩, ⟨"A", none, 0, none, none⟩]
    ∧ ¬ meanLeProp (some 5) none
    ∧ ¬ meanLeProp none (some 5) := by
  refine ⟨?_, by simp [meanLeProp], by simp [meanLeProp]⟩
  have hkeys : insSort strLeB (dedupKeepFirst
      (([⟨"A", "M", some 0, some (-60), none⟩,
         ⟨"B", "M", some 0, some 300, some 5⟩] : List DRow).map (fun r => r.tecnico)))
      = ["A", "B"] := by
    simp [dedupKeepFirst, insSort, insertSorted, strLeB, strLtB, lexLtB]
  have hvA : (([⟨"A", "M", some 0, some (-60), none⟩,
         ⟨"B", "M", some 0, some 300, some 5⟩] : List DRow).filter
        (fun r => r.tecnico == "A")).filterMap (fun r => r.durMin) = [] := by
    simp
  have hvB : (([⟨"A", "M", some 0, some (-60), none⟩,
         ⟨"B", "M", some 0, some 300, some 5⟩] : List DRow).filter
        (fun r => r.tecnico == "B")).filterMap (fun r => r.durMin) = [5] := by
    simp
  rw [get_average_duration_by_technician, aggregateBy, groupKeys, hkeys]
  simp only [List.map]
  rw [hvA, hvB]
  have hrA : aggRowFor "A" [] = ⟨"A", none, 0, none, none⟩ := rfl
  have hrB : aggRowFor "B" [5] = ⟨"B", some 5, 1, some 5, some 5⟩ := by
    rw [aggRowFor, meanOf]
    norm_num
  rw [hrA, hrB]
  simp only [insSort, insertSorted, aggLe]
  simp

/-- Claim C9 amended: each aggregation pass returns its rows so that
rows with defined (non-NaN) means come in ascending mean order and
every NaN-mean row (a group with zero valid records) is placed after
all defined-mean rows.  These are the properties any
`sort_values('Promedio (min)')` output has; the relative order of rows
with equal means is left unspecified by the source (pandas' default
quicksort is not stable), so no tie-order guarantee is claimed. -/
theorem claim_C9_amended (rows : List DRow) :
    (get_average_duration_by_technician rows).Pairwise (fun a b =>
      (∀ x y : ℚ, a.mean = some x → b.mean = some y → x ≤ y)
      ∧ (a.mean = none → b.mean = none))
    ∧ (get_average_duration_by_terminal_model rows).Pairwise (fun a b =>
      (∀ x y : ℚ, a.mean = some x → b.mean = some y → x ≤ y)
      ∧ (a.mean = none → b.mean = none)) := by
  constructor <;>
  · refine (aggregateBy_pairwise _ rows).imp ?_
    rintro a b ⟨hle, _⟩
    refine ⟨?_, ?_⟩
    · intro x y hx hy
      simp only [aggLe, hx, hy] at hle
      exact of_decide_eq_true hle
    · intro hx
      rcases hb : b.mean with _ | y
      · rfl
      · simp [aggLe, hx, hb] at hle

/-- Witness for the amended C9 at a concrete two-technician input: the
two emitted rows have means 5 and 7 in that order, and 5 ≤ 7 follows
from the theorem. -/
theorem claim_C9_amended_witness :
    get_average_duration_by_technician
        [⟨"A", "M", some 0, some 300, some 5⟩, ⟨"B", "M", some 0, some 420, some 7⟩]
      = [⟨"A", some 5, 1, some 5, some 5⟩, ⟨"B", some 7, 1, some 7, some 7⟩]
    ∧ ((5:ℚ) ≤ 7) := by
  have heval : get_average_duration_by_technician
      [⟨"A", "M", some 0, some 300, some 5⟩, ⟨"B", "M", some 0, some 420, some 7⟩]
      = [⟨"A", some 5, 1, some 5, some 5⟩, ⟨"B", some 7, 1, some 7, some 7⟩] := by
    have hkeys : insSort strLeB (dedupKeepFirst
        (([⟨"A", "M", some 0, some 300, some 5⟩,
           ⟨"B", "M", some 0, some 420, some 7⟩] : List DRow).map (fun r => r.tecnico)))
        = ["A", "B"] := by
      simp [dedupKeepFirst, insSort, insertSorted, strLeB, strLtB, lexLtB]
    have hvA : (([⟨"A", "M", some 0, some 300, some 5⟩,
           ⟨"B", "M", some 0, some 420, some 7⟩] : List DRow).filter
          (fun r => r.tecnico == "A")).filterMap (fun r => r.durMin) = [5] := by
      simp
    have hvB : (([⟨"A", "M", some 0, some 300, some 5⟩,
           ⟨"B", "M", some 0, some 420, some 7⟩] : List DRow).filter
          (fun r => r.tecnico == "B")).filterMap (fun r => r.durMin) = [7] := by
      simp
    rw [get_average_duration_by_technician, aggregateBy, groupKeys, hkeys]
    simp only [List.map]
    rw [hvA, hvB]
    have hrA : aggRowFor "A" [5] = ⟨"A", some 5, 1, some 5, some 5⟩ := by
      rw [aggRowFor, meanOf]
      norm_num
    have hrB : aggRowFor "B" [7] = ⟨"B", some 7, 1, some 7, some 7⟩ := by
      rw [aggRowFor, meanOf]
      norm_num
    rw [hrA, hrB]
    simp only [insSort, insertSorted, aggLe]
    norm_num
  refine ⟨heval, ?_⟩
  have h := (claim_C9_amended
    [⟨"A", "M", some 0, some 300, some 5⟩, ⟨"B", "M", some 0, some 420, some 7⟩]).1
  rw [heval] at h
  rcases List.pairwise_cons.mp h with ⟨hrel, _⟩
  exact (hrel ⟨"B", some 7, 1, some 7, some 7⟩ (by simp)).1 5 7 rfl rfl

/-! ## Lemmas about `process_excel_file` -/

theorem process_find_none {df : XFrame}
    (hcols : ∀ c ∈ requiredColumns, df.columns.contains c = true) :
    requiredColumns.find? (fun c => !df.columns.contains c) = none :=
  List.find?_eq_none.mpr (fun c hc h2 => by
    rw [hcols c hc] at h2
    simp at h2)

theorem operational_data_mem_keys (offs : List (String × XOfficer)) (affs : List XAffiliate) :
    "operational_data" ∈ (XResult.result offs affs).keys := by
  rw [XResult.keys]
  by_cases h : (offs.map Prod.fst).contains "operational_data"
  · rw [if_pos h]
    simpa using h
  · rw [if_neg h]
    simp

theorem normalizeRow_eq_none_of_unparsable {r : XRow}
    (h : r.llegada = CellTime.unparsable ∨ r.salida = CellTime.unparsable) :
    normalizeRow r = none := by
  rcases h with h | h
  · rcases hs : parseTimeCell r.salida with _ | t <;>
      simp [normalizeRow, h, hs, parseTimeCell]
  · rcases hl : parseTimeCell r.llegada with _ | t <;>
      simp [normalizeRow, h, hl, parseTimeCell]

/-- Claim C7: on a dataset having all required columns where every
surviving timestamp pair is unparsable, `process_excel_file` returns a
result (no exception) with no per-officer entry, and the anomaly pass
over the resulting empty duration list is empty. -/
theorem claim_C7_empty_but_valid (df : XFrame)
    (hcols : ∀ c ∈ requiredColumns, df.columns.contains c = true)
    (hmal : ∀ r ∈ df.rows,
      r.llegada = CellTime.unparsable ∨ r.salida = CellTime.unparsable) :
    (∃ res, process_excel_file df = Except.ok res ∧ res.officersOf = [])
    ∧ (∀ k : ℚ, identify_anomalies id ([] : List ℚ) k = []) := by
  constructor
  · rw [process_excel_file, process_find_none hcols]
    by_cases hemp : (df.rows.filter keepRow).isEmpty
    · refine ⟨XResult.emptyDict, ?_, rfl⟩
      simp only [hemp, if_true]
    · have hrows2 : (df.rows.filter keepRow).filterMap normalizeRow = [] := by
        rw [List.filterMap_eq_nil_iff]
        intro r hr
        exact normalizeRow_eq_none_of_unparsable (hmal r (List.mem_of_mem_filter hr))
      refine ⟨XResult.result [] (affiliatesData df), ?_, rfl⟩
      simp only [hemp, Bool.false_eq_true, if_false, hrows2]
      rw [show dedupKeepFirst (([] : List NRow).map (fun r => r.oficial)) = []
        by simp [dedupKeepFirst]]
      rfl
  · intro k
    rfl

/-- Witness for C7: a one-row frame with the technician present and an
unparsable arrival yields a result with no officer entry. -/
theorem claim_C7_empty_but_valid_witness :
    ∃ res, process_excel_file ⟨requiredColumns,
        [⟨some "A", CellTime.unparsable, CellTime.parsed 5, none, CellDate.missing⟩]⟩
      = Except.ok res ∧ res.officersOf = [] :=
  (claim_C7_empty_but_valid
    ⟨requiredColumns,
      [⟨some "A", CellTime.unparsable, CellTime.parsed 5, none, CellDate.missing⟩]⟩
    (by decide) (by decide)).1

/-- Claim C10: with the required columns present, the result dictionary
has two shapes — a bare empty dictionary when every row lacks a value in
some required column, and otherwise a dictionary that always carries the
`operational_data` key (so a caller iterating the keys as technician
names also encounters it) whose affiliates list collapses to the single
`No especificado` placeholder when the affiliate columns are absent or
when no affiliate pair survives. -/
theorem claim_C10_result_shapes (df : XFrame)
    (hcols : ∀ c ∈ requiredColumns, df.columns.contains c = true) :
    ((df.rows.filter keepRow).isEmpty = true →
      process_excel_file df = Except.ok XResult.emptyDict)
    ∧ ((df.rows.filter keepRow).isEmpty = false →
      ∃ offs, process_excel_file df = Except.ok (XResult.result offs (affiliatesData df))
        ∧ "operational_data" ∈ (XResult.result offs (affiliatesData df)).keys)
    ∧ ((df.columns.contains "Nombre del Afiliado"
          && df.columns.contains "Fecha de Reporte") = false →
        affiliatesData df = [defaultAffiliate])
    ∧ ((df.rows.map (fun r => (r.afiliado, r.fecha))).filter
          (fun p => !(p.1.isNone && p.2.isMissing)) = [] →
        affiliatesData df = [defaultAffiliate]) := by
  refine ⟨?_, ?_, ?_, ?_⟩
  · intro hemp
    rw [process_excel_file, process_find_none hcols]
    simp only [hemp, if_true]
  · intro hemp
    rw [process_excel_file, process_find_none hcols]
    simp only [hemp, Bool.false_eq_true, if_false]
    exact ⟨_, rfl, operational_data_mem_keys _ _⟩
  · intro h
    rw [affiliatesData]
    simp only [h, Bool.false_eq_true, if_false]
  · intro h
    rw [affiliatesData]
    by_cases hca : (df.columns.contains "Nombre del Afiliado"
        && df.columns.contains "Fecha de Reporte") = true
    · rw [if_pos hca, h]
      simp [dedupKeepFirst]
    · rw [if_neg hca]

/-- Witness for C10: a frame whose only row lacks the technician value
returns the bare empty dictionary, while a frame with one valid row
returns a result carrying the `operational_data` key with the default
affiliate placeholder. -/
theorem claim_C10_result_shapes_witness :
    process_excel_file ⟨requiredColumns,
        [⟨none, CellTime.parsed 0, CellTime.parsed 1, none, CellDate.missing⟩]⟩
      = Except.ok XResult.emptyDict
    ∧ (∃ offs, process_excel_file ⟨requiredColumns,
        [⟨some "B", CellTime.parsed 0, CellTime.parsed 3700, none, CellDate.missing⟩]⟩
      = Except.ok (XResult.result offs (affiliatesData ⟨requiredColumns,
        [⟨some "B", CellTime.parsed 0, CellTime.parsed 3700, none, CellDate.missing⟩]⟩))
      ∧ "operational_data" ∈ (XResult.result offs (affiliatesData ⟨requiredColumns,
        [⟨some "B", CellTime.parsed 0, CellTime.parsed 3700, none, CellDate.missing⟩]⟩)).keys)
    ∧ affiliatesData ⟨requiredColumns,
        [⟨some "B", CellTime.parsed 0, CellTime.parsed 3700, none, CellDate.missing⟩]⟩
      = [defaultAffiliate] := by
  have h1 := claim_C10_result_shapes ⟨requiredColumns,
    [⟨none, CellTime.parsed 0, CellTime.parsed 1, none, CellDate.missing⟩]⟩ (by decide)
  have h2 := claim_C10_result_shapes ⟨requiredColumns,
    [⟨some "B", CellTime.parsed 0, CellTime.parsed 3700, none, CellDate.missing⟩]⟩ (by decide)
  exact ⟨h1.1 (by decide), h2.2.1 (by decide), h2.2.2.1 (by decide)⟩

end BotVA
